import Mathlib

/-!
Shallow embedding of surok's discovery engine (src/surok/discovery.py).

Python dicts are modelled as insertion-ordered association lists over
String keys; dict update keeps the original position of an existing key
and appends a fresh key at the end, exactly as CPython does.  Exceptions
raised by the Python code (`ValueError` from `list.index`, `IndexError`
from list subscripts, `KeyError` from dict subscripts, `TypeError` /
`AttributeError` from shape-mismatched port slots) are modelled with
`Except String`.  DNS results are supplied through an environment of
functions standing for the post-helper results of `do_query_srv` /
`do_query_a` (the helpers themselves already catch DNS failures and
return empty lists).  SRV port numbers, which the Python code carries as
decimal strings, are modelled as the natural numbers they denote.
-/

namespace Surok

/-- Lookup in an insertion-ordered association list (Python `d[k]` / `k in d`). -/
def alistGet {α : Type} : List (String × α) → String → Option α
  | [], _ => none
  | (k, v) :: l, k0 => if k = k0 then some v else alistGet l k0

/-- Update/insert in an insertion-ordered association list (Python `d[k] = v`):
an existing key keeps its position, a fresh key is appended at the end. -/
def alistSet {α : Type} : List (String × α) → String → α → List (String × α)
  | [], k, v => [(k, v)]
  | (k0, v0) :: l, k, v => if k0 = k then (k, v) :: l else (k0, v0) :: alistSet l k v

/-- A fold over a list in the `Except String` monad, written out explicitly:
the first failing step aborts the whole fold (a raised Python exception). -/
def foldE {α β : Type} (f : β → α → Except String β) : β → List α → Except String β
  | b, [] => .ok b
  | b, a :: l =>
    match f b a with
    | .ok b1 => foldE f b1 l
    | .error e => .error e

/-- Severity of a log line emitted through the logger collaborator. -/
inductive LogLevel
  | error
  | warning
deriving DecidableEq, Repr

abbrev Log := LogLevel × String

/-- The two protocols a service spec may declare. -/
inductive Prot
  | tcp
  | udp
deriving DecidableEq, Repr

def Prot.str : Prot → String
  | .tcp => "tcp"
  | .udp => "udp"

/-- The per-protocol port slot of a resolved host: either a raw list of
ports (`serv[hostname][prot]` initialised with `[]`) or a named-port map
(initialised with `{}`). -/
inductive PortInfo
  | raw (ports : List Nat)
  | named (tbl : List (String × Nat))
deriving DecidableEq, Repr

/-- A resolved host dict `{'name': ..., 'ip': ..., 'tcp'?: ..., 'udp'?: ...}`.
`none` in a protocol field models the key being absent from the dict. -/
structure HostEntry where
  name : String
  ip : List String
  tcp : Option PortInfo := none
  udp : Option PortInfo := none
deriving DecidableEq, Repr

def HostEntry.getProt (h : HostEntry) : Prot → Option PortInfo
  | .tcp => h.tcp
  | .udp => h.udp

def HostEntry.setProt (h : HostEntry) : Prot → PortInfo → HostEntry
  | .tcp, pi => { h with tcp := some pi }
  | .udp, pi => { h with udp := some pi }

/-- A service spec from an app's `services` list.  A protocol field is
`none` when the protocol key is absent from the spec dict, `some masks`
when present (the mask list may be empty, meaning any port accepted). -/
structure ServiceSpec where
  name : String
  group : Option String := none
  tcp : Option (List String) := none
  udp : Option (List String) := none
deriving DecidableEq, Repr

def ServiceSpec.getProt (s : ServiceSpec) : Prot → Option (List String)
  | .tcp => s.tcp
  | .udp => s.udp

/-- An app under discovery.  `group`/`discovery` are optional; `conf_name`
is the diagnostic label attached by the configuration subsystem. -/
structure App where
  services : List ServiceSpec
  group : Option String := none
  discovery : Option String := none
  conf_name : String := ""
deriving Repr

/-- DNS environment: `srv fqdn` is the `(target, port)` list produced by
`do_query_srv fqdn`, `a fqdn` the address list produced by `do_query_a`. -/
structure DnsEnv where
  srv : String → List (String × Nat)
  a : String → List String

/-- The error line logged when a service has no effective group
(`'Group for service "{}" of config "{}" not found'`). -/
def groupErrMsg (sname conf : String) : String :=
  "Group for service \"" ++ sname ++ "\" of config \"" ++ conf ++ "\" not found"

/-- `serv[hostname]` if present, else the fresh entry
`{'name': hostname, 'ip': do_query_a(hostname)}` that the code inserts. -/
def fetchHost (aq : String → List String) (serv : List (String × HostEntry))
    (hostname : String) : HostEntry :=
  match alistGet serv hostname with
  | some h => h
  | none => { name := hostname, ip := aq hostname }

/-- `serv[hostname].setdefault(prot, {}); serv[hostname][prot][port_name] = port`.
Indexing a raw list with a string key raises `TypeError`. -/
def addNamedPort (h : HostEntry) (prot : Prot) (pname : String) (port : Nat) :
    Except String HostEntry :=
  match h.getProt prot with
  | none => .ok (h.setProt prot (.named [(pname, port)]))
  | some (.named tbl) => .ok (h.setProt prot (.named (alistSet tbl pname port)))
  | some (.raw _) => .error "TypeError: list indices must be integers"

/-- `serv[hostname].setdefault(prot, []); serv[hostname][prot].append(port)`
(the Marathon branch uses `.extend([port])`, which is the same append).
Calling `append` on a dict raises `AttributeError`. -/
def addRawPort (h : HostEntry) (prot : Prot) (port : Nat) : Except String HostEntry :=
  match h.getProt prot with
  | none => .ok (h.setProt prot (.raw [port]))
  | some (.raw ps) => .ok (h.setProt prot (.raw (ps ++ [port])))
  | some (.named _) => .error "AttributeError: dict object has no attribute append"

/-- The result of a backend `resolve`: service name to list of hosts. -/
abbrev Resolved := List (String × List HostEntry)

/-! ## DiscoveryMesos.resolve (the DNS backend) -/

/-- `'_{0}._{1}.{2}._{3}.{4}'.format(port_name, name, group, prot, domain)`. -/
def mesosFqdnNamed (portName sname group prot domain : String) : String :=
  "_" ++ portName ++ "._" ++ sname ++ "." ++ group ++ "._" ++ prot ++ "." ++ domain

/-- `'_{0}.{1}._{2}.{3}'.format(name, group, prot, domain)`. -/
def mesosFqdnRaw (sname group prot domain : String) : String :=
  "_" ++ sname ++ "." ++ group ++ "._" ++ prot ++ "." ++ domain

/-- One `(hostname, port)` SRV answer processed in the masked branch. -/
def mesosNamedStep (env : DnsEnv) (prot : Prot) (pname : String)
    (serv : List (String × HostEntry)) (rec : String × Nat) :
    Except String (List (String × HostEntry)) :=
  match addNamedPort (fetchHost env.a serv rec.1) prot pname rec.2 with
  | .ok h1 => .ok (alistSet serv rec.1 h1)
  | .error e => .error e

/-- One `(hostname, port)` SRV answer processed in the unmasked branch. -/
def mesosRawStep (env : DnsEnv) (prot : Prot)
    (serv : List (String × HostEntry)) (rec : String × Nat) :
    Except String (List (String × HostEntry)) :=
  match addRawPort (fetchHost env.a serv rec.1) prot rec.2 with
  | .ok h1 => .ok (alistSet serv rec.1 h1)
  | .error e => .error e

/-- The body of `for prot in [x for x in ['tcp', 'udp'] if x in service]`. -/
def mesosProt (env : DnsEnv) (domain sname group : String) (spec : ServiceSpec)
    (serv : List (String × HostEntry)) (prot : Prot) :
    Except String (List (String × HostEntry)) :=
  match spec.getProt prot with
  | none => .ok serv
  | some masks =>
    if masks.length ≠ 0 then
      foldE (fun sv pname =>
        foldE (mesosNamedStep env prot pname) sv
          (env.srv (mesosFqdnNamed pname sname group prot.str domain))) serv masks
    else
      foldE (mesosRawStep env prot) serv
        (env.srv (mesosFqdnRaw sname group prot.str domain))

/-- One service of `DiscoveryMesos.resolve`: missing group logs an error and
skips the service, otherwise the accumulated host dict's values are stored
under the service name. -/
def mesosService (env : DnsEnv) (domain : String) (app : App)
    (acc : Resolved × List Log) (spec : ServiceSpec) :
    Except String (Resolved × List Log) :=
  match spec.group <|> app.group with
  | none => .ok (acc.1, acc.2 ++ [(.error, groupErrMsg spec.name app.conf_name)])
  | some group =>
    match foldE (mesosProt env domain spec.name group spec) [] [Prot.tcp, Prot.udp] with
    | .ok serv => .ok (alistSet acc.1 spec.name (serv.map Prod.snd), acc.2)
    | .error e => .error e

/-- `DiscoveryMesos.resolve(app)`: the resolved mapping together with the
log lines emitted while producing it. -/
def mesosResolve (env : DnsEnv) (domain : String) (app : App) :
    Except String (Resolved × List Log) :=
  foldE (mesosService env domain app) ([], []) app.services

/-! ## DiscoveryMarathon (the control-plane API backend) -/

/-- One entry of `container.docker.portMappings`. -/
structure PortMapping where
  protocol : String
  name : String
  servicePort : Nat
deriving DecidableEq, Repr

/-- One entry of the `/v2/tasks` task list. -/
structure MTask where
  appId : String
  host : String
  ports : List Nat
  servicePorts : List Nat
deriving DecidableEq, Repr

/-- Split a character list at every occurrence of `c` (Python
`str.split` with a one-character separator: `"" -> [""]`, separators at
the ends produce empty fields). -/
def charSplit (c : Char) : List Char → List (List Char)
  | [] => [[]]
  | x :: xs =>
    match charSplit c xs with
    | [] => [[]]
    | w :: ws => if x = c then [] :: w :: ws else (x :: w) :: ws

/-- Python `sep.split` on a string, one-character separator. -/
def pySplit (c : Char) (s : String) : List String :=
  (charSplit c s.data).map fun l => ⟨l⟩

/-- Python `sep.join(xs)`. -/
def pyJoin (sep : String) : List String → String
  | [] => ""
  | [x] => x
  | x :: y :: xs => x ++ sep ++ pyJoin sep (y :: xs)

/-- Python `s[n:]` (n counted in characters). -/
def pyDrop (s : String) (n : Nat) : String :=
  ⟨s.data.drop n⟩

/-- Python `s[:-1]`. -/
def pyDropLast (s : String) : String :=
  ⟨s.data.dropLast⟩

/-- Python `s.endswith(suf)`. -/
def pyEndsWith (s suf : String) : Bool :=
  suf.data.isSuffixOf s.data

/-- Python `s.startswith(pre)`. -/
def pyStartsWith (s pre : String) : Bool :=
  pre.data.isPrefixOf s.data

/-- `DiscoveryMarathon._test_mask`. -/
def testMask (mask value : String) : Bool :=
  (pyEndsWith mask "*" && pyStartsWith value (pyDropLast mask)) || mask == value

/-- `'/' + '/'.join(group.split('.')[::-1]) + '/'`. -/
def groupPath (group : String) : String :=
  "/" ++ pyJoin "/" (pySplit '.' group).reverse ++ "/"

/-- `'.'.join(task['appId'][len(group):].split('/')[::-1])`. -/
def taskServiceName (gpath appId : String) : String :=
  pyJoin "." (pySplit '/' (pyDrop appId gpath.length)).reverse

/-- The protocol string of a port mapping, matched against the `'tcp'` /
`'udp'` keys a service spec may declare (`if prot in service`); any other
protocol string names no declared protocol slot. -/
def parseProt (s : String) : Option Prot :=
  if s = "tcp" then some .tcp else if s = "udp" then some .udp else none

/-- One entry of `self._ports[task['appId']]` processed inside the task loop.
`task['ports'][task['servicePorts'].index(task_port['servicePort'])]` is
computed first: a missing service port raises `ValueError`, a short live-port
list raises `IndexError`, in both cases before the protocol is examined. -/
def marathonPortStep (aq : String → List String) (spec : ServiceSpec) (task : MTask)
    (serv : List (String × HostEntry)) (tp : PortMapping) :
    Except String (List (String × HostEntry)) :=
  match task.servicePorts.findIdx? (fun p => p == tp.servicePort) with
  | none => .error "ValueError: tp.servicePort is not in list"
  | some idx =>
    match task.ports.get? idx with
    | none => .error "IndexError: list index out of range"
    | some port =>
      match parseProt tp.protocol with
      | none => .ok serv
      | some prot =>
        match spec.getProt prot with
        | none => .ok serv
        | some masks =>
          if masks.length ≠ 0 then
            foldE (fun sv mask =>
              if testMask mask tp.name then
                match addNamedPort (fetchHost aq sv task.host) prot tp.name port with
                | .ok h1 => .ok (alistSet sv task.host h1)
                | .error e => .error e
              else .ok sv) serv masks
          else
            match addRawPort (fetchHost aq serv task.host) prot port with
            | .ok h1 => .ok (alistSet serv task.host h1)
            | .error e => .error e

/-- One cached task processed for one service: a matching app id resets
`hosts[name]` to a fresh dict, iterates that app's port mappings
(`self._ports[task['appId']]` raises `KeyError` when absent) and stores the
dict's values back under the derived name. -/
def marathonTaskStep (aq : String → List String)
    (portsCache : List (String × List PortMapping)) (spec : ServiceSpec)
    (smask gpath : String) (hosts : Resolved) (task : MTask) :
    Except String Resolved :=
  if testMask smask task.appId then
    match alistGet portsCache task.appId with
    | none => .error "KeyError: task.appId not in ports cache"
    | some pms =>
      match foldE (marathonPortStep aq spec task) [] pms with
      | .ok serv =>
        .ok (alistSet hosts (taskServiceName gpath task.appId) (serv.map Prod.snd))
      | .error e => .error e
  else .ok hosts

/-- One service of `DiscoveryMarathon.resolve`. -/
def marathonService (aq : String → List String) (tasks : List MTask)
    (portsCache : List (String × List PortMapping)) (app : App)
    (acc : Resolved × List Log) (spec : ServiceSpec) :
    Except String (Resolved × List Log) :=
  match spec.group <|> app.group with
  | none => .ok (acc.1, acc.2 ++ [(.error, groupErrMsg spec.name app.conf_name)])
  | some group =>
    let gpath := groupPath group
    match foldE (marathonTaskStep aq portsCache spec (gpath ++ spec.name) gpath)
        acc.1 tasks with
    | .ok hosts => .ok (hosts, acc.2)
    | .error e => .error e

/-- `DiscoveryMarathon.resolve(app)` over the cached task list and the
cached per-app port-mapping table. -/
def marathonResolve (aq : String → List String) (tasks : List MTask)
    (portsCache : List (String × List PortMapping)) (app : App) :
    Except String (Resolved × List Log) :=
  foldE (marathonService aq tasks portsCache app) ([], []) app.services

/-! ## Discovery (the registry) and the compatibility transform -/

/-- A `{name, ip, port}` record produced by `Discovery.compatible` for the
legacy flat schema.  The Python list branch stores `str(port)` and the map
branch the raw port value; both denote the same port number, modelled
uniformly as that number. -/
structure HostRecord where
  name : String
  ip : List String
  port : Nat
deriving DecidableEq, Repr

/-- A value of `compatible_hosts[service]`: a flat record list (raw-port
hosts) or a name-keyed map of record lists (named-port hosts). -/
inductive CompatVal
  | recs (rs : List HostRecord)
  | recMap (tbl : List (String × List HostRecord))
deriving DecidableEq, Repr

/-- The dynamic return value of `Discovery.compatible`: the untouched input
on a non-legacy version, or the reshaped structure on version `'0.7'`. -/
inductive CompatResult
  | passthru (hosts : Resolved)
  | legacy (tbl : List (String × CompatVal))
deriving DecidableEq, Repr

/-- The body of the host loop of `Discovery.compatible`: reads only
`host.get('tcp', [])` and re-initialises `compatible_hosts[service]`
before filling it from this host. -/
def compatHost (ch : List (String × CompatVal)) (service : String)
    (host : HostEntry) : List (String × CompatVal) :=
  match host.tcp.getD (.raw []) with
  | .raw ports =>
    alistSet ch service (.recs (ports.map fun p => ⟨host.name, host.ip, p⟩))
  | .named tbl =>
    alistSet ch service (.recMap (tbl.foldl (fun d pp =>
      alistSet d pp.1 (((alistGet d pp.1).getD []) ++ [⟨host.name, host.ip, pp.2⟩])) []))

/-- `Discovery.compatible(hosts)` under the configured `version`. -/
def compatible (version : String) (hosts : Resolved) : CompatResult :=
  if version = "0.7" then
    .legacy (hosts.foldl (fun ch sv => sv.2.foldl (fun c h => compatHost c sv.1 h) ch) [])
  else .passthru hosts

/-- A backend as the registry sees it: its `enabled` flag and its
`resolve` behaviour. -/
structure Backend where
  enabled : Bool
  resolve : App → Resolved

def notPresentMsg (d : String) : String :=
  "Discovery \"" ++ d ++ "\" is not present"

def disabledMsg (d : String) : String :=
  "Discovery \"" ++ d ++ "\" is disabled"

/-- The names held by the registry's `_discoveries` table. -/
def registryKeys : List String := ["mesos_dns", "marathon_api", "none"]

/-- `Discovery.resolve(app)` over a registry table `discoveries`, returning
the (possibly reshaped) result together with the registry's own log lines. -/
def registryResolve (discoveries : List (String × Backend))
    (defaultDiscovery version : String) (app : App) : CompatResult × List Log :=
  if app.services.isEmpty then (.passthru [], [])
  else
    let d := app.discovery.getD defaultDiscovery
    match alistGet discoveries d with
    | none => (.passthru [], [(.warning, notPresentMsg d)])
    | some b =>
      if b.enabled then (compatible version (b.resolve app), [])
      else (.passthru [], [(.error, disabledMsg d)])

/-! ## DiscoveryMarathon.update_data -/

/-- The `container` object of a `/v2/apps` entry, with its type string and
`docker.portMappings` (defaulted to `[]` by the code). -/
structure MContainer where
  ctype : String
  portMappings : List PortMapping
deriving DecidableEq, Repr

/-- One `/v2/apps` entry. -/
structure MApp where
  id : String
  container : Option MContainer
deriving DecidableEq, Repr

/-- The backend's cached upstream state: `_ports` (per app id; a non-Docker
app's `{}` placeholder iterates like the empty list it is modelled as)
and `_tasks`. -/
structure MarathonState where
  ports : List (String × List PortMapping)
  tasks : List MTask
deriving DecidableEq, Repr

def appsFailMsg (host : String) : String :=
  "Apps (" ++ host ++ "/v2/apps) request from Marathon API is failed"

def tasksFailMsg (host : String) : String :=
  "Tasks (" ++ host ++ "/v2/tasks) request from Marathon API is failed"

/-- The dict built inside the apps `try` block. -/
def buildPorts (apps : List MApp) : List (String × List PortMapping) :=
  apps.foldl (fun d a =>
    let d1 := alistSet d a.id []
    match a.container with
    | some c => if c.ctype = "DOCKER" then alistSet d1 a.id c.portMappings else d1
    | none => d1) []

/-- `DiscoveryMarathon.update_data`.  Each request's outcome is an
`Option`: `none` models the bare `except:` branch firing (HTTP failure or
any malformed payload raising inside the `try`), in which case the cache
that request would have replaced keeps its previous value and a warning
naming the endpoint is logged. -/
def updateData (st : MarathonState) (host : String)
    (appsResp : Option (List MApp)) (tasksResp : Option (List MTask)) :
    MarathonState × List Log :=
  let pl : List (String × List PortMapping) × List Log :=
    match appsResp with
    | some apps => (buildPorts apps, [])
    | none => (st.ports, [(.warning, appsFailMsg host)])
  let tl : List MTask × List Log :=
    match tasksResp with
    | some ts => (ts, [])
    | none => (st.tasks, [(.warning, tasksFailMsg host)])
  (⟨pl.1, tl.1⟩, pl.2 ++ tl.2)

/-! ## Shape predicates and invariants -/

/-- Shape agreement between a service spec's mask declaration for a
protocol and a host's slot for that protocol: an absent slot is fine, a
raw list requires the spec to declare the protocol with no masks, a named
map requires the spec to declare a non-empty mask list. -/
def slotOk (masks : Option (List String)) : Option PortInfo → Bool
  | none => true
  | some (.raw _) => masks == some []
  | some (.named _) =>
    match masks with
    | some ms => !ms.isEmpty
    | none => false

/-- Both protocol slots of a host agree with a service spec. -/
def hostOk (spec : ServiceSpec) (h : HostEntry) : Bool :=
  slotOk (spec.getProt .tcp) (h.getProt .tcp) && slotOk (spec.getProt .udp) (h.getProt .udp)

/-- Every host list of the result is shape-consistent with some service
spec of the app (its originating spec). -/
def resolvedOk (app : App) (r : Resolved) : Bool :=
  r.all fun sv => app.services.any fun spec => sv.2.all fun h => hostOk spec h

/-- All hosts of a per-service accumulator agree with the spec. -/
def ServInv (spec : ServiceSpec) (serv : List (String × HostEntry)) : Prop :=
  ∀ p ∈ serv, hostOk spec p.2 = true

/-- Every entry of a result has an originating spec in the app. -/
def HostsInv (app : App) (hosts : Resolved) : Prop :=
  ∀ sv ∈ hosts, ∃ spec ∈ app.services, ∀ h ∈ sv.2, hostOk spec h = true

/-- Erase every host's udp slot (used to state that the compatibility
transform reads only the tcp slot). -/
def eraseUdp (hosts : Resolved) : Resolved :=
  hosts.map fun sv => (sv.1, sv.2.map fun h => { h with udp := none })

/-- The SRV query names `DiscoveryMesos.resolve` issues for one protocol
of a service whose effective group is `g` (per-port names when masks are
declared, the group-level name otherwise). -/
def mesosProtFqdns (domain : String) (s : ServiceSpec) (g : String) (prot : Prot) :
    List String :=
  match s.getProt prot with
  | none => []
  | some masks =>
    if masks.length ≠ 0 then
      masks.map fun pname => mesosFqdnNamed pname s.name g prot.str domain
    else [mesosFqdnRaw s.name g prot.str domain]

/-- All SRV query names the DNS backend issues for a service. -/
def mesosQueryFqdns (domain : String) (s : ServiceSpec) (g : String) : List String :=
  mesosProtFqdns domain s g .tcp ++ mesosProtFqdns domain s g .udp

/-! ## Concrete inputs used by counterexamples and witnesses -/

/-- An address environment resolving nothing. -/
def aq0 : String → List String := fun _ => []

/-- A DNS environment with no SRV answers and no addresses. -/
def dnsEmpty : DnsEnv := ⟨fun _ => [], fun _ => []⟩

/-- A DNS environment answering the unmasked tcp query for service `web`
in group `g` over domain `dom`. -/
def dnsOne : DnsEnv :=
  ⟨fun f => if f = "_web.g._tcp.dom" then [("n1", 7)] else [], fun _ => ["9.9.9.9"]⟩

def specWeb : ServiceSpec := { name := "web", tcp := some [] }

def appWeb : App := { services := [specWeb], group := some "g", conf_name := "c" }

def taskH1 : MTask := ⟨"/g/web", "h1", [31000, 31001], [100, 200]⟩

def taskH2 : MTask := ⟨"/g/web", "h2", [31000, 31001], [100, 200]⟩

def pmHttp200 : PortMapping := ⟨"tcp", "http", 200⟩

def pmHttp300 : PortMapping := ⟨"tcp", "http", 300⟩

def hostA : HostEntry := { name := "hA", ip := ["1.1.1.1"], tcp := some (.named [("web", 8080)]) }

def hostB : HostEntry := { name := "hB", ip := ["2.2.2.2"], tcp := some (.named [("web", 9090)]) }

def hostC : HostEntry := { name := "hC", ip := [], tcp := some (.raw [1, 2]) }

def hostD : HostEntry := { name := "hD", ip := [], tcp := some (.raw [3]) }

def appSvc : App := { services := [{ name := "svc", tcp := some [] }], group := some "g", conf_name := "c" }

def specNoGroup : ServiceSpec := { name := "a" }

def specB : ServiceSpec := { name := "b", group := some "g", tcp := some [] }

def appMixed : App := { services := [specNoGroup, specB], conf_name := "cfg" }

/-! ## Association-list lemmas -/

theorem alistGet_set_self {α : Type} (l : List (String × α)) (k : String) (v : α) :
    alistGet (alistSet l k v) k = some v := by
  induction l with
  | nil => simp [alistGet, alistSet]
  | cons p l ih =>
    by_cases h : p.1 = k
    · simp [alistSet, alistGet, h]
    · simp only [alistSet, h, if_false]
      simpa [alistGet, h] using ih

theorem alistGet_set_ne {α : Type} (l : List (String × α)) {k' k : String} (v : α)
    (h : k' ≠ k) : alistGet (alistSet l k' v) k = alistGet l k := by
  induction l with
  | nil => simp [alistGet, alistSet, h]
  | cons p l ih =>
    by_cases hp : p.1 = k'
    · simp [alistSet, alistGet, hp, h]
    · simp only [alistSet, hp, if_false]
      by_cases hk : p.1 = k
      · simp [alistGet, hk]
      · simpa [alistGet, hk] using ih

theorem alistGet_mem {α : Type} {l : List (String × α)} {k : String} {v : α}
    (h : alistGet l k = some v) : (k, v) ∈ l := by
  induction l with
  | nil => simp [alistGet] at h
  | cons p l ih =>
    by_cases hp : p.1 = k
    · simp only [alistGet, hp, if_true] at h
      cases h
      have hpe : (k, p.2) = p := by rw [← hp]
      rw [hpe]
      exact List.mem_cons_self _ _
    · simp only [alistGet, hp, if_false] at h
      exact List.mem_cons_of_mem _ (ih h)

theorem mem_alistSet {α : Type} {l : List (String × α)} {k : String} {v : α} {p}
    (h : p ∈ alistSet l k v) : p ∈ l ∨ p = (k, v) := by
  induction l with
  | nil => simpa [alistSet] using h
  | cons q l ih =>
    by_cases hq : q.1 = k
    · simp only [alistSet, hq, if_true] at h
      rcases List.mem_cons.1 h with h | h
      · exact Or.inr h
      · exact Or.inl (List.mem_cons_of_mem _ h)
    · simp only [alistSet, hq, if_false] at h
      rcases List.mem_cons.1 h with h | h
      · exact Or.inl (h ▸ List.mem_cons_self _ _)
      · rcases ih h with h | h
        · exact Or.inl (List.mem_cons_of_mem _ h)
        · exact Or.inr h

theorem alistGet_set_isSome {α : Type} {l : List (String × α)} {k : String}
    (k' : String) (v : α) (h : (alistGet l k).isSome) :
    (alistGet (alistSet l k' v) k).isSome := by
  by_cases hk : k' = k
  · subst hk
    rw [alistGet_set_self]
    rfl
  · rwa [alistGet_set_ne l v hk]

/-! ## foldE lemmas -/

theorem foldE_append {α β : Type} (f : β → α → Except String β) (b : β)
    (l1 l2 : List α) :
    foldE f b (l1 ++ l2) =
      match foldE f b l1 with
      | .ok b1 => foldE f b1 l2
      | .error e => .error e := by
  induction l1 generalizing b with
  | nil => simp [foldE]
  | cons a l ih =>
    simp only [List.cons_append, foldE]
    cases f b a with
    | ok b1 => exact ih b1
    | error e => rfl

theorem foldE_inv {α β : Type} {f : β → α → Except String β} {P : β → Prop}
    {l : List α} (hf : ∀ b a b', a ∈ l → P b → f b a = .ok b' → P b') :
    ∀ {b b'}, P b → foldE f b l = .ok b' → P b' := by
  induction l with
  | nil =>
    intro b b' hP h
    simp only [foldE] at h
    cases h
    exact hP
  | cons a l ih =>
    intro b b' hP h
    simp only [foldE] at h
    cases hfa : f b a with
    | ok b1 =>
      rw [hfa] at h
      exact ih (fun b a b' ha => hf b a b' (List.mem_cons_of_mem _ ha))
        (hf b a b1 (List.mem_cons_self _ _) hP hfa) h
    | error e => rw [hfa] at h; cases h

theorem foldE_ok {α β : Type} {f : β → α → Except String β} {P : β → Prop}
    {l : List α} (hf : ∀ b a, a ∈ l → P b → ∃ b', f b a = .ok b' ∧ P b') :
    ∀ {b}, P b → ∃ b', foldE f b l = .ok b' ∧ P b' := by
  induction l with
  | nil => intro b hP; exact ⟨b, rfl, hP⟩
  | cons a l ih =>
    intro b hP
    obtain ⟨b1, hb1, hP1⟩ := hf b a (List.mem_cons_self _ _) hP
    obtain ⟨b', hb', hP'⟩ := ih (fun b a ha => hf b a (List.mem_cons_of_mem _ ha)) hP1
    exact ⟨b', by simp only [foldE, hb1]; exact hb', hP'⟩

theorem foldE_skip {α β : Type} {f : β → α → Except String β} {l : List α}
    (hf : ∀ b a, a ∈ l → f b a = .ok b) : ∀ b, foldE f b l = .ok b := by
  induction l with
  | nil => intro b; rfl
  | cons a l ih =>
    intro b
    simp only [foldE, hf b a (List.mem_cons_self _ _)]
    exact ih (fun b a ha => hf b a (List.mem_cons_of_mem _ ha)) b

/-! ## Host shape lemmas -/

theorem getProt_setProt_self (h : HostEntry) (prot : Prot) (pi : PortInfo) :
    (h.setProt prot pi).getProt prot = some pi := by
  cases prot <;> rfl

theorem getProt_setProt_other (h : HostEntry) {prot prot' : Prot} (pi : PortInfo)
    (hne : prot' ≠ prot) : (h.setProt prot pi).getProt prot' = h.getProt prot' := by
  cases prot <;> cases prot' <;> first | rfl | exact absurd rfl hne

theorem hostOk_iff {spec : ServiceSpec} {h : HostEntry} :
    hostOk spec h = true ↔
      ∀ prot, slotOk (spec.getProt prot) (h.getProt prot) = true := by
  constructor
  · intro hok prot
    rw [hostOk, Bool.and_eq_true] at hok
    cases prot
    · exact hok.1
    · exact hok.2
  · intro hall
    rw [hostOk, Bool.and_eq_true]
    exact ⟨hall .tcp, hall .udp⟩

theorem hostOk_setProt {spec : ServiceSpec} {h : HostEntry} {prot : Prot}
    {pi : PortInfo} (hok : hostOk spec h = true)
    (hslot : slotOk (spec.getProt prot) (some pi) = true) :
    hostOk spec (h.setProt prot pi) = true := by
  rw [hostOk_iff]
  intro prot'
  by_cases hp : prot' = prot
  · subst hp
    rw [getProt_setProt_self]
    exact hslot
  · rw [getProt_setProt_other h pi hp]
    exact hostOk_iff.1 hok prot'

theorem addNamedPort_ok {spec : ServiceSpec} {prot : Prot} {masks : List String}
    (hm : spec.getProt prot = some masks) (hne : masks ≠ []) {h : HostEntry}
    (hok : hostOk spec h = true) (pname : String) (port : Nat) :
    ∃ h', addNamedPort h prot pname port = .ok h' ∧ hostOk spec h' = true := by
  have hslot : ∀ tbl, slotOk (spec.getProt prot) (some (.named tbl)) = true := by
    intro tbl
    rw [hm]
    simp [slotOk, hne]
  cases hget : h.getProt prot with
  | none =>
    refine ⟨h.setProt prot (.named [(pname, port)]), ?_, ?_⟩
    · simp [addNamedPort, hget]
    · exact hostOk_setProt hok (hslot _)
  | some pi =>
    cases pi with
    | raw ps =>
      exfalso
      have := hostOk_iff.1 hok prot
      rw [hget, hm] at this
      simp [slotOk] at this
      exact hne this
    | named tbl =>
      refine ⟨h.setProt prot (.named (alistSet tbl pname port)), ?_, ?_⟩
      · simp [addNamedPort, hget]
      · exact hostOk_setProt hok (hslot _)

theorem addRawPort_ok {spec : ServiceSpec} {prot : Prot}
    (hm : spec.getProt prot = some []) {h : HostEntry}
    (hok : hostOk spec h = true) (port : Nat) :
    ∃ h', addRawPort h prot port = .ok h' ∧ hostOk spec h' = true := by
  have hslot : ∀ ps, slotOk (spec.getProt prot) (some (.raw ps)) = true := by
    intro ps
    rw [hm]
    simp [slotOk]
  cases hget : h.getProt prot with
  | none =>
    refine ⟨h.setProt prot (.raw [port]), ?_, ?_⟩
    · simp [addRawPort, hget]
    · exact hostOk_setProt hok (hslot _)
  | some pi =>
    cases pi with
    | raw ps =>
      refine ⟨h.setProt prot (.raw (ps ++ [port])), ?_, ?_⟩
      · simp [addRawPort, hget]
      · exact hostOk_setProt hok (hslot _)
    | named tbl =>
      exfalso
      have := hostOk_iff.1 hok prot
      rw [hget, hm] at this
      simp [slotOk] at this

theorem fetchHost_hostOk {spec : ServiceSpec} {serv : List (String × HostEntry)}
    (hinv : ServInv spec serv) (aq : String → List String) (hn : String) :
    hostOk spec (fetchHost aq serv hn) = true := by
  unfold fetchHost
  cases hget : alistGet serv hn with
  | some h => exact hinv _ (alistGet_mem hget)
  | none => rfl

theorem ServInv_set {spec : ServiceSpec} {serv : List (String × HostEntry)}
    {h : HostEntry} (hinv : ServInv spec serv) (hok : hostOk spec h = true)
    (k : String) : ServInv spec (alistSet serv k h) := by
  intro p hp
  rcases mem_alistSet hp with hp | hp
  · exact hinv p hp
  · rw [hp]
    exact hok

/-! ## Mesos resolve: success and shape invariants -/

theorem mesosNamedStep_ok {env : DnsEnv} {spec : ServiceSpec} {prot : Prot}
    {masks : List String} (hm : spec.getProt prot = some masks) (hne : masks ≠ [])
    (pname : String) {serv : List (String × HostEntry)} (hinv : ServInv spec serv)
    (rec : String × Nat) :
    ∃ serv', mesosNamedStep env prot pname serv rec = .ok serv' ∧ ServInv spec serv' := by
  obtain ⟨h', heq, hok⟩ :=
    addNamedPort_ok hm hne (fetchHost_hostOk hinv env.a rec.1) pname rec.2
  exact ⟨alistSet serv rec.1 h', by simp [mesosNamedStep, heq], ServInv_set hinv hok _⟩

theorem mesosRawStep_ok {env : DnsEnv} {spec : ServiceSpec} {prot : Prot}
    (hm : spec.getProt prot = some []) {serv : List (String × HostEntry)}
    (hinv : ServInv spec serv) (rec : String × Nat) :
    ∃ serv', mesosRawStep env prot serv rec = .ok serv' ∧ ServInv spec serv' := by
  obtain ⟨h', heq, hok⟩ := addRawPort_ok hm (fetchHost_hostOk hinv env.a rec.1) rec.2
  exact ⟨alistSet serv rec.1 h', by simp [mesosRawStep, heq], ServInv_set hinv hok _⟩

theorem mesosProt_ok (env : DnsEnv) (domain sname group : String) (spec : ServiceSpec)
    {serv : List (String × HostEntry)} (hinv : ServInv spec serv) (prot : Prot) :
    ∃ serv', mesosProt env domain sname group spec serv prot = .ok serv' ∧
      ServInv spec serv' := by
  unfold mesosProt
  cases hm : spec.getProt prot with
  | none => exact ⟨serv, rfl, hinv⟩
  | some masks =>
    by_cases hmask : masks = []
    · subst hmask
      simp only [ne_eq, List.length_nil, not_true_eq_false, if_false]
      exact foldE_ok (fun sv rec _ hP => mesosRawStep_ok hm hP rec) hinv
    · have hlen : masks.length ≠ 0 := by
        simpa [List.length_eq_zero] using hmask
      simp only [ne_eq, hlen, not_false_eq_true, if_true]
      exact foldE_ok
        (fun sv pname _ hP =>
          foldE_ok (fun sv' rec _ hP' => mesosNamedStep_ok hm hmask pname hP' rec) hP)
        hinv

theorem mesosService_ok (env : DnsEnv) (domain : String) (app : App)
    {acc : Resolved × List Log} {spec : ServiceSpec} (hspec : spec ∈ app.services)
    (hinv : HostsInv app acc.1) :
    ∃ acc', mesosService env domain app acc spec = .ok acc' ∧ HostsInv app acc'.1 := by
  cases hg : spec.group <|> app.group with
  | none =>
    refine ⟨(acc.1, acc.2 ++ [(.error, groupErrMsg spec.name app.conf_name)]), ?_, hinv⟩
    simp only [mesosService, hg]
  | some group =>
    have hServ : ServInv spec ([] : List (String × HostEntry)) := by
      intro p hp
      cases hp
    obtain ⟨serv, hserveq, hservinv⟩ :=
      foldE_ok (l := [Prot.tcp, Prot.udp])
        (fun sv prot _ hP => mesosProt_ok env domain spec.name group spec hP prot)
        hServ
    refine ⟨(alistSet acc.1 spec.name (serv.map Prod.snd), acc.2), ?_, ?_⟩
    · simp only [mesosService, hg, hserveq]
    · intro sv hsv
      rcases mem_alistSet hsv with hsv | hsv
      · exact hinv sv hsv
      · refine ⟨spec, hspec, ?_⟩
        intro h hh
        rw [hsv] at hh
        rcases List.mem_map.1 hh with ⟨p, hp, rfl⟩
        exact hservinv p hp

theorem mesosFold_ok (env : DnsEnv) (domain : String) (app : App)
    {l : List ServiceSpec} (hl : ∀ x ∈ l, x ∈ app.services)
    {acc : Resolved × List Log} (hinv : HostsInv app acc.1) :
    ∃ acc', foldE (mesosService env domain app) acc l = .ok acc' ∧
      HostsInv app acc'.1 := by
  exact foldE_ok
    (fun b a ha hP => mesosService_ok env domain app (hl a ha) hP) hinv

theorem mesosResolve_ok (env : DnsEnv) (domain : String) (app : App) :
    ∃ r logs, mesosResolve env domain app = .ok (r, logs) ∧ HostsInv app r := by
  have h0 : HostsInv app ([] : Resolved) := by
    intro sv hsv
    cases hsv
  obtain ⟨acc, heq, hinv⟩ :=
    @mesosFold_ok env domain app app.services (fun x hx => hx) ([], []) h0
  exact ⟨acc.1, acc.2, heq, hinv⟩

theorem resolvedOk_of_inv {app : App} {r : Resolved} (hinv : HostsInv app r) :
    resolvedOk app r = true := by
  rw [resolvedOk, List.all_eq_true]
  intro sv hsv
  obtain ⟨spec, hspec, hh⟩ := hinv sv hsv
  rw [List.any_eq_true]
  refine ⟨spec, hspec, ?_⟩
  rw [List.all_eq_true]
  intro h hhm
  exact hh h hhm

/-! ## Marathon resolve: shape invariants -/

theorem marathonPortStep_inv {aq : String → List String} {spec : ServiceSpec}
    {task : MTask} {serv serv' : List (String × HostEntry)} {tp : PortMapping}
    (hinv : ServInv spec serv)
    (heq : marathonPortStep aq spec task serv tp = .ok serv') :
    ServInv spec serv' := by
  unfold marathonPortStep at heq
  cases hidx : task.servicePorts.findIdx? (fun p => p == tp.servicePort) with
  | none =>
    simp only [hidx] at heq
    exact Except.noConfusion heq
  | some idx =>
    simp only [hidx] at heq
    cases hport : task.ports.get? idx with
    | none =>
      simp only [hport] at heq
      exact Except.noConfusion heq
    | some port =>
      simp only [hport] at heq
      cases hpp : parseProt tp.protocol with
      | none =>
        simp only [hpp] at heq
        cases heq
        exact hinv
      | some prot =>
        simp only [hpp] at heq
        cases hm : spec.getProt prot with
        | none =>
          simp only [hm] at heq
          cases heq
          exact hinv
        | some masks =>
          simp only [hm] at heq
          by_cases hmask : masks = []
          · subst hmask
            simp only [ne_eq, List.length_nil, not_true_eq_false, if_false] at heq
            obtain ⟨h', heq', hok'⟩ :=
              addRawPort_ok hm (fetchHost_hostOk hinv aq task.host) port
            rw [heq'] at heq
            cases heq
            exact ServInv_set hinv hok' _
          · have hlen : masks.length ≠ 0 := by
              simpa [List.length_eq_zero] using hmask
            simp only [ne_eq, hlen, not_false_eq_true, if_true] at heq
            refine foldE_inv ?_ hinv heq
            intro sv mask b' hmem hP hstep
            by_cases ht : testMask mask tp.name
            · simp only [ht, if_true] at hstep
              obtain ⟨h', heq', hok'⟩ :=
                addNamedPort_ok hm hmask (fetchHost_hostOk hP aq task.host)
                  tp.name port
              rw [heq'] at hstep
              cases hstep
              exact ServInv_set hP hok' _
            · simp only [ht, if_false] at hstep
              cases hstep
              exact hP

theorem marathonTaskStep_inv {aq : String → List String}
    {portsCache : List (String × List PortMapping)} {spec : ServiceSpec}
    {smask gpath : String} {app : App} (hspec : spec ∈ app.services)
    {hosts hosts' : Resolved} (hinv : HostsInv app hosts) {task : MTask}
    (heq : marathonTaskStep aq portsCache spec smask gpath hosts task = .ok hosts') :
    HostsInv app hosts' := by
  unfold marathonTaskStep at heq
  by_cases ht : testMask smask task.appId
  · simp only [ht, if_true] at heq
    cases hpc : alistGet portsCache task.appId with
    | none =>
      simp only [hpc] at heq
      exact Except.noConfusion heq
    | some pms =>
      simp only [hpc] at heq
      cases hfold : foldE (marathonPortStep aq spec task) [] pms with
      | error e =>
        simp only [hfold] at heq
        exact Except.noConfusion heq
      | ok serv =>
        simp only [hfold] at heq
        cases heq
        have hservinv : ServInv spec serv := by
          refine foldE_inv ?_ ?_ hfold
          · intro b a b' ha hP h
            exact marathonPortStep_inv hP h
          · intro p hp
            cases hp
        intro sv hsv
        rcases mem_alistSet hsv with hsv | hsv
        · exact hinv sv hsv
        · refine ⟨spec, hspec, ?_⟩
          intro h hh
          rw [hsv] at hh
          rcases List.mem_map.1 hh with ⟨p, hp, rfl⟩
          exact hservinv p hp
  · simp only [ht, if_false] at heq
    cases heq
    exact hinv

theorem marathonService_inv {aq : String → List String} {tasks : List MTask}
    {portsCache : List (String × List PortMapping)} {app : App}
    {acc acc' : Resolved × List Log} {spec : ServiceSpec}
    (hspec : spec ∈ app.services) (hinv : HostsInv app acc.1)
    (heq : marathonService aq tasks portsCache app acc spec = .ok acc') :
    HostsInv app acc'.1 := by
  unfold marathonService at heq
  cases hg : spec.group <|> app.group with
  | none =>
    simp only [hg] at heq
    cases heq
    exact hinv
  | some group =>
    simp only [hg] at heq
    cases hfold : foldE
        (marathonTaskStep aq portsCache spec (groupPath group ++ spec.name)
          (groupPath group)) acc.1 tasks with
    | error e =>
      simp only [hfold] at heq
      exact Except.noConfusion heq
    | ok hosts =>
      simp only [hfold] at heq
      cases heq
      refine foldE_inv ?_ hinv hfold
      intro b a b' ha hP h
      exact marathonTaskStep_inv hspec hP h

/-! ## Log bookkeeping lemmas -/

theorem foldE_logSplit {α : Type}
    (f : (Resolved × List Log) → α → Except String (Resolved × List Log))
    (hf : ∀ acc a, f acc a = (f (acc.1, []) a).map fun p => (p.1, acc.2 ++ p.2)) :
    ∀ (l : List α) (h : Resolved) (logs : List Log),
      foldE f (h, logs) l = (foldE f (h, []) l).map fun p => (p.1, logs ++ p.2) := by
  intro l
  induction l with
  | nil =>
    intro h logs
    simp [foldE, Except.map]
  | cons a l ih =>
    intro h logs
    simp only [foldE]
    rw [hf (h, logs) a, hf (h, []) a]
    cases hfa : f ((h, []).1, []) a with
    | error e => simp [Except.map]
    | ok p =>
      simp only [Except.map, List.nil_append]
      rw [ih p.1 (logs ++ p.2), ih p.1 p.2]
      cases foldE f (p.1, []) l with
      | error e => simp [Except.map]
      | ok q => simp [Except.map]

theorem mesosService_split (env : DnsEnv) (domain : String) (app : App)
    (acc : Resolved × List Log) (spec : ServiceSpec) :
    mesosService env domain app acc spec =
      (mesosService env domain app (acc.1, []) spec).map fun p => (p.1, acc.2 ++ p.2) := by
  unfold mesosService
  cases hg : spec.group <|> app.group with
  | none => simp [Except.map]
  | some group =>
    cases hh : foldE (mesosProt env domain spec.name group spec) [] [Prot.tcp, Prot.udp] with
    | ok serv => simp [hh, Except.map]
    | error e => simp [hh, Except.map]

theorem marathonService_split (aq : String → List String) (tasks : List MTask)
    (portsCache : List (String × List PortMapping)) (app : App)
    (acc : Resolved × List Log) (spec : ServiceSpec) :
    marathonService aq tasks portsCache app acc spec =
      (marathonService aq tasks portsCache app (acc.1, []) spec).map
        fun p => (p.1, acc.2 ++ p.2) := by
  unfold marathonService
  cases hg : spec.group <|> app.group with
  | none => simp [Except.map]
  | some group =>
    cases hh : foldE
        (marathonTaskStep aq portsCache spec (groupPath group ++ spec.name)
          (groupPath group)) acc.1 tasks with
    | ok hosts => simp [hh, Except.map]
    | error e => simp [hh, Except.map]

/-- A successful service step never removes a key from the hosts mapping. -/
theorem mesosService_keeps_key {env : DnsEnv} {domain : String} {app : App}
    {acc acc' : Resolved × List Log} {spec : ServiceSpec} {k : String}
    (hk : (alistGet acc.1 k).isSome)
    (heq : mesosService env domain app acc spec = .ok acc') :
    (alistGet acc'.1 k).isSome := by
  unfold mesosService at heq
  cases hg : spec.group <|> app.group with
  | none =>
    simp only [hg] at heq
    cases heq
    exact hk
  | some group =>
    simp only [hg] at heq
    cases hserv : foldE (mesosProt env domain spec.name group spec) []
        [Prot.tcp, Prot.udp] with
    | error e =>
      simp only [hserv] at heq
      exact Except.noConfusion heq
    | ok serv =>
      simp only [hserv] at heq
      cases heq
      exact alistGet_set_isSome _ _ hk

/-! ## Claim theorems -/

/-- C1.  In `DiscoveryMarathon.resolve` the allocated port is indeed the
entry of the task's `ports` list at the position of the declared
`servicePort` inside `servicePorts` (servicePorts = [100, 200],
ports = [31000, 31001], declared 200 yields 31001); but when the declared
service port is absent from `servicePorts`, the port is NOT skipped:
`list.index` raises an uncaught `ValueError` that aborts the whole
resolution, contradicting the claim's skip-and-continue requirement. -/
theorem claim1_positional_port_lookup_and_crash_on_absent_servicePort :
    marathonResolve aq0 [taskH1] [("/g/web", [pmHttp200])] appWeb =
      .ok ([("web", [{ name := "h1", ip := [], tcp := some (.raw [31001]) }])], [])
    ∧ marathonResolve aq0 [taskH1] [("/g/web", [pmHttp300])] appWeb =
      .error "ValueError: tp.servicePort is not in list" :=
  ⟨rfl, rfl⟩

/-- C2.  `Discovery.compatible` on the legacy version re-initialises
`compatible_hosts[service]` inside the per-host loop, so with two hosts
only the last host's records survive, in both the raw-list and the
named-map branch — earlier hosts' records are lost, contradicting the
claim's accumulation over all hosts of the service. -/
theorem claim2_compatible_keeps_only_last_hosts_records :
    compatible "0.7" [("s", [hostA, hostB])] =
      .legacy [("s", .recMap [("web", [⟨"hB", ["2.2.2.2"], 9090⟩])])]
    ∧ compatible "0.7" [("s", [hostC, hostD])] =
      .legacy [("s", .recs [⟨"hD", [], 3⟩])] :=
  ⟨rfl, rfl⟩

/-- C3.  In `DiscoveryMarathon.resolve`, `hosts[name] = {}` runs for every
matching task, so the second of two tasks of the same app (same appId,
hosts h1 and h2) discards the first task's host entry instead of merging:
only h2 appears in the result, contradicting the claim's aggregation. -/
theorem claim3_marathon_second_task_discards_first_tasks_host :
    marathonResolve aq0 [taskH1, taskH2] [("/g/web", [pmHttp200])] appWeb =
      .ok ([("web", [{ name := "h2", ip := [], tcp := some (.raw [31001]) }])], []) :=
  rfl

/-- C4 counterexample.  In `DiscoveryMesos.resolve` a service whose SRV
lookups return no records is NOT absent from the result: `hosts[name]`
is initialised before any query, so the service maps to the empty list. -/
theorem claim4_counterexample_mesos_service_present_despite_no_records :
    mesosResolve dnsEmpty "dom" appSvc = .ok ([("svc", [])], []) :=
  rfl

/-- C7.  The registry's `resolve` returns empty without delegation when the
app has no services, when the selected backend name is unknown (warning),
or when the selected backend is disabled (error); otherwise it returns the
selected backend's result passed through the compatibility transform. -/
theorem claim7_registry_dispatch :
    (∀ (ds : List (String × Backend)) (dd v : String) (app : App),
      app.services = [] → registryResolve ds dd v app = (.passthru [], []))
    ∧ (∀ (ds : List (String × Backend)) (dd v : String) (app : App),
      app.services ≠ [] → alistGet ds (app.discovery.getD dd) = none →
      registryResolve ds dd v app =
        (.passthru [], [(.warning, notPresentMsg (app.discovery.getD dd))]))
    ∧ (∀ (ds : List (String × Backend)) (dd v : String) (app : App) (b : Backend),
      app.services ≠ [] → alistGet ds (app.discovery.getD dd) = some b →
      b.enabled = false →
      registryResolve ds dd v app =
        (.passthru [], [(.error, disabledMsg (app.discovery.getD dd))]))
    ∧ (∀ (ds : List (String × Backend)) (dd v : String) (app : App) (b : Backend),
      app.services ≠ [] → alistGet ds (app.discovery.getD dd) = some b →
      b.enabled = true →
      registryResolve ds dd v app = (compatible v (b.resolve app), [])) := by
  refine ⟨?_, ?_, ?_, ?_⟩
  · intro ds dd v app h
    simp [registryResolve, h]
  · intro ds dd v app h h2
    cases hs : app.services with
    | nil => exact absurd hs h
    | cons x l => simp [registryResolve, hs, h2]
  · intro ds dd v app b h h2 h3
    cases hs : app.services with
    | nil => exact absurd hs h
    | cons x l => simp [registryResolve, hs, h2, h3]
  · intro ds dd v app b h h2 h3
    cases hs : app.services with
    | nil => exact absurd hs h
    | cons x l => simp [registryResolve, hs, h2, h3]

/-- C8.  On any configured version other than the legacy `'0.7'`,
`Discovery.compatible` returns its input unchanged. -/
theorem claim8_compatible_identity_on_non_legacy :
    ∀ (version : String) (hosts : Resolved), version ≠ "0.7" →
      compatible version hosts = .passthru hosts := by
  intro v hosts h
  simp [compatible, h]

/-- C9.  In `DiscoveryMarathon.update_data` the two requests fail
independently: a failed apps request leaves the ports cache unchanged and
logs a warning naming `/v2/apps`; a failed tasks request leaves the task
cache unchanged and logs a warning naming `/v2/tasks`; and each cache's
new value never depends on the other request's outcome (the function is
total, so no exception escapes). -/
theorem claim9_update_data_failures_independent :
    (∀ (st : MarathonState) (host : String) (t : Option (List MTask)),
      (updateData st host none t).1.ports = st.ports
      ∧ (LogLevel.warning, appsFailMsg host) ∈ (updateData st host none t).2)
    ∧ (∀ (st : MarathonState) (host : String) (a : Option (List MApp)),
      (updateData st host a none).1.tasks = st.tasks
      ∧ (LogLevel.warning, tasksFailMsg host) ∈ (updateData st host a none).2)
    ∧ (∀ (st : MarathonState) (host : String) (a : Option (List MApp))
        (t t' : Option (List MTask)),
      (updateData st host a t).1.ports = (updateData st host a t').1.ports)
    ∧ (∀ (st : MarathonState) (host : String) (a a' : Option (List MApp))
        (t : Option (List MTask)),
      (updateData st host a t).1.tasks = (updateData st host a' t).1.tasks) := by
  refine ⟨?_, ?_, ?_, ?_⟩
  · intro st host t
    cases t <;> simp [updateData]
  · intro st host a
    cases a <;> simp [updateData]
  · intro st host a t t'
    cases a <;> cases t <;> cases t' <;> rfl
  · intro st host a a' t
    cases a <;> cases a' <;> cases t <;> rfl

/-- C5.  In both backends, every host of a successful resolution is
shape-consistent with its originating service spec: a protocol declared
with no masks only ever carries a raw port list in a host's slot, a
protocol declared with explicit masks only ever carries a named-port map,
and the two shapes never mix within one protocol slot (an absent slot is
the only other possibility). -/
theorem claim5_port_shape_invariant :
    (∀ (env : DnsEnv) (domain : String) (app : App) (r : Resolved) (logs : List Log),
      mesosResolve env domain app = .ok (r, logs) → resolvedOk app r = true)
    ∧ (∀ (aq : String → List String) (tasks : List MTask)
        (portsCache : List (String × List PortMapping)) (app : App)
        (r : Resolved) (logs : List Log),
      marathonResolve aq tasks portsCache app = .ok (r, logs) →
      resolvedOk app r = true) := by
  constructor
  · intro env domain app r logs heq
    obtain ⟨r0, l0, heq0, hinv⟩ := mesosResolve_ok env domain app
    rw [heq] at heq0
    cases heq0
    exact resolvedOk_of_inv hinv
  · intro aq tasks pc app r logs heq
    unfold marathonResolve at heq
    have h0 : HostsInv app (([], []) : Resolved × List Log).1 := by
      intro sv hsv
      cases hsv
    have hinv := foldE_inv (P := fun acc : Resolved × List Log => HostsInv app acc.1)
      (fun b a b' ha hP h => marathonService_inv ha hP h) h0 heq
    exact resolvedOk_of_inv hinv

/-- `mesosService` depends on the app only through `group` and `conf_name`. -/
theorem mesosService_congr (env : DnsEnv) (domain : String) {a b : App}
    (hg : a.group = b.group) (hc : a.conf_name = b.conf_name) :
    mesosService env domain a = mesosService env domain b := by
  funext acc spec
  unfold mesosService
  rw [hg, hc]

/-- `marathonService` depends on the app only through `group` and `conf_name`. -/
theorem marathonService_congr (aq : String → List String) (tasks : List MTask)
    (portsCache : List (String × List PortMapping)) {a b : App}
    (hg : a.group = b.group) (hc : a.conf_name = b.conf_name) :
    marathonService aq tasks portsCache a = marathonService aq tasks portsCache b := by
  funext acc spec
  unfold marathonService
  rw [hg, hc]

/-- C6.  In both backends a service with no group override inside an app
with no group is skipped: an error log naming the service and the config
source is emitted at that point, the service contributes nothing to the
result, no exception is raised by the skip itself, and the remaining
services resolve exactly as if the group-less one were not there (in the
control-plane backend a failure of another service aborts both runs with
the same error). -/
theorem claim6_missing_group_skips_service :
    (∀ (env : DnsEnv) (domain : String) (app : App) (pre post : List ServiceSpec)
        (s : ServiceSpec),
      app.services = pre ++ s :: post → s.group = none → app.group = none →
      ∃ r logsA logsB,
        mesosResolve env domain app =
          .ok (r, logsA ++ (LogLevel.error, groupErrMsg s.name app.conf_name) :: logsB)
        ∧ mesosResolve env domain { app with services := pre ++ post } =
          .ok (r, logsA ++ logsB))
    ∧ (∀ (aq : String → List String) (tasks : List MTask)
        (portsCache : List (String × List PortMapping)) (app : App)
        (pre post : List ServiceSpec) (s : ServiceSpec),
      app.services = pre ++ s :: post → s.group = none → app.group = none →
      (∃ e, marathonResolve aq tasks portsCache app = .error e
        ∧ marathonResolve aq tasks portsCache { app with services := pre ++ post } =
            .error e)
      ∨ (∃ r logsA logsB,
        marathonResolve aq tasks portsCache app =
          .ok (r, logsA ++ (LogLevel.error, groupErrMsg s.name app.conf_name) :: logsB)
        ∧ marathonResolve aq tasks portsCache { app with services := pre ++ post } =
            .ok (r, logsA ++ logsB))) := by
  constructor
  · intro env domain app pre post s hsplit hsg hag
    have hg : (s.group <|> app.group) = none := by rw [hsg, hag]; rfl
    have happ : mesosService env domain { app with services := pre ++ post } =
        mesosService env domain app := mesosService_congr env domain rfl rfl
    have hsv : ({ app with services := pre ++ post } : App).services = pre ++ post := rfl
    have h0 : HostsInv app (([], []) : Resolved × List Log).1 := by
      intro sv hsv2
      cases hsv2
    obtain ⟨accP, hpre, hinvP⟩ :=
      @mesosFold_ok env domain app pre
        (fun x hx => by rw [hsplit]; exact List.mem_append_left _ hx) ([], []) h0
    obtain ⟨hostsP, logsP⟩ := accP
    have hFs : mesosService env domain app (hostsP, logsP) s =
        .ok (hostsP, logsP ++ [(LogLevel.error, groupErrMsg s.name app.conf_name)]) := by
      simp only [mesosService, hg]
    obtain ⟨accQ, hpost, hinvQ⟩ :=
      @mesosFold_ok env domain app post
        (fun x hx => by rw [hsplit]; exact List.mem_append_right _ (List.mem_cons_of_mem _ hx))
        (hostsP, []) hinvP
    refine ⟨accQ.1, logsP, accQ.2, ?_, ?_⟩
    · unfold mesosResolve
      rw [hsplit, foldE_append]
      simp only [hpre, foldE, hFs]
      rw [foldE_logSplit (mesosService env domain app) (mesosService_split env domain app)
        post hostsP (logsP ++ [(LogLevel.error, groupErrMsg s.name app.conf_name)])]
      rw [hpost]
      simp [Except.map]
    · unfold mesosResolve
      rw [happ, hsv, foldE_append]
      simp only [hpre]
      rw [foldE_logSplit (mesosService env domain app) (mesosService_split env domain app)
        post hostsP logsP]
      rw [hpost]
      simp [Except.map]
  · intro aq tasks pc app pre post s hsplit hsg hag
    have hg : (s.group <|> app.group) = none := by rw [hsg, hag]; rfl
    have happ : marathonService aq tasks pc { app with services := pre ++ post } =
        marathonService aq tasks pc app := marathonService_congr aq tasks pc rfl rfl
    have hsv : ({ app with services := pre ++ post } : App).services = pre ++ post := rfl
    cases hpre : foldE (marathonService aq tasks pc app) ([], []) pre with
    | error e =>
      left
      refine ⟨e, ?_, ?_⟩
      · unfold marathonResolve
        rw [hsplit, foldE_append, hpre]
      · unfold marathonResolve
        rw [happ, hsv, foldE_append, hpre]
    | ok accP =>
      obtain ⟨hostsP, logsP⟩ := accP
      have hFs : marathonService aq tasks pc app (hostsP, logsP) s =
          .ok (hostsP, logsP ++ [(LogLevel.error, groupErrMsg s.name app.conf_name)]) := by
        simp only [marathonService, hg]
      cases hpost : foldE (marathonService aq tasks pc app) (hostsP, []) post with
      | error e =>
        left
        refine ⟨e, ?_, ?_⟩
        · unfold marathonResolve
          rw [hsplit, foldE_append]
          simp only [hpre, foldE, hFs]
          rw [foldE_logSplit (marathonService aq tasks pc app)
            (marathonService_split aq tasks pc app) post hostsP
            (logsP ++ [(LogLevel.error, groupErrMsg s.name app.conf_name)])]
          rw [hpost]
          simp [Except.map]
        · unfold marathonResolve
          rw [happ, hsv, foldE_append]
          simp only [hpre]
          rw [foldE_logSplit (marathonService aq tasks pc app)
            (marathonService_split aq tasks pc app) post hostsP logsP]
          rw [hpost]
          simp [Except.map]
      | ok accQ =>
        right
        refine ⟨accQ.1, logsP, accQ.2, ?_, ?_⟩
        · unfold marathonResolve
          rw [hsplit, foldE_append]
          simp only [hpre, foldE, hFs]
          rw [foldE_logSplit (marathonService aq tasks pc app)
            (marathonService_split aq tasks pc app) post hostsP
            (logsP ++ [(LogLevel.error, groupErrMsg s.name app.conf_name)])]
          rw [hpost]
          simp [Except.map]
        · unfold marathonResolve
          rw [happ, hsv, foldE_append]
          simp only [hpre]
          rw [foldE_logSplit (marathonService aq tasks pc app)
            (marathonService_split aq tasks pc app) post hostsP logsP]
          rw [hpost]
          simp [Except.map]

/-- A successful service step keeps the value stored under any key other
than its own service name. -/
theorem mesosService_keeps_value {env : DnsEnv} {domain : String} {app : App}
    {acc acc' : Resolved × List Log} {spec : ServiceSpec} {k : String}
    {v : List HostEntry} (hne : spec.name ≠ k) (hk : alistGet acc.1 k = some v)
    (heq : mesosService env domain app acc spec = .ok acc') :
    alistGet acc'.1 k = some v := by
  unfold mesosService at heq
  cases hg : spec.group <|> app.group with
  | none =>
    simp only [hg] at heq
    cases heq
    exact hk
  | some group =>
    simp only [hg] at heq
    cases hserv : foldE (mesosProt env domain spec.name group spec) []
        [Prot.tcp, Prot.udp] with
    | error e =>
      simp only [hserv] at heq
      exact Except.noConfusion heq
    | ok serv =>
      simp only [hserv] at heq
      cases heq
      rw [alistGet_set_ne _ _ hne]
      exact hk

/-- C4 amended.  In the Control-Plane API backend a service (with an
effective group) whose mask matches no cached task contributes nothing:
resolution of the app yields exactly the result and logs of resolving the
app without that service — an entry under that service's name can only
come from another service's matching tasks.  In the DNS backend a grouped
service is never absent and never null: its name is always a key of the
result, and when every SRV query it issues returns no records (and no
later service reuses its name) it is mapped to the empty host list. -/
theorem claim4_amended_absent_only_in_marathon :
    (∀ (aq : String → List String) (tasks : List MTask)
        (portsCache : List (String × List PortMapping)) (app : App)
        (pre post : List ServiceSpec) (s : ServiceSpec) (g : String),
      app.services = pre ++ s :: post → (s.group <|> app.group) = some g →
      (∀ task ∈ tasks, testMask (groupPath g ++ s.name) task.appId = false) →
      marathonResolve aq tasks portsCache app =
        marathonResolve aq tasks portsCache { app with services := pre ++ post })
    ∧ (∀ (env : DnsEnv) (domain : String) (app : App) (r : Resolved)
        (logs : List Log) (s : ServiceSpec),
      mesosResolve env domain app = .ok (r, logs) → s ∈ app.services →
      (s.group <|> app.group).isSome → (alistGet r s.name).isSome)
    ∧ (∀ (env : DnsEnv) (domain : String) (app : App)
        (pre post : List ServiceSpec) (s : ServiceSpec) (g : String),
      app.services = pre ++ s :: post → (s.group <|> app.group) = some g →
      (∀ f ∈ mesosQueryFqdns domain s g, env.srv f = []) →
      (∀ s2 ∈ post, s2.name ≠ s.name) →
      ∃ r logs, mesosResolve env domain app = .ok (r, logs)
        ∧ alistGet r s.name = some []) := by
  refine ⟨?_, ?_, ?_⟩
  · intro aq tasks pc app pre post s g hsplit hg hmask
    have happ : marathonService aq tasks pc { app with services := pre ++ post } =
        marathonService aq tasks pc app := marathonService_congr aq tasks pc rfl rfl
    have hsv : ({ app with services := pre ++ post } : App).services = pre ++ post := rfl
    have hskip : ∀ (hosts : Resolved) (task : MTask), task ∈ tasks →
        marathonTaskStep aq pc s (groupPath g ++ s.name) (groupPath g) hosts task =
          .ok hosts := by
      intro hosts task htask
      unfold marathonTaskStep
      rw [hmask task htask]
      simp
    unfold marathonResolve
    rw [hsplit, hsv, happ, foldE_append, foldE_append]
    cases hpre : foldE (marathonService aq tasks pc app) ([], []) pre with
    | error e => simp only [hpre]
    | ok accP =>
      obtain ⟨hostsP, logsP⟩ := accP
      have hfold : foldE (marathonTaskStep aq pc s (groupPath g ++ s.name) (groupPath g))
          hostsP tasks = .ok hostsP := foldE_skip hskip hostsP
      have hFs : marathonService aq tasks pc app (hostsP, logsP) s = .ok (hostsP, logsP) := by
        simp only [marathonService, hg, hfold]
      simp only [hpre, foldE, hFs]
  · intro env domain app r logs s heq hs hg
    obtain ⟨pre, post, hsplit⟩ := List.append_of_mem hs
    unfold mesosResolve at heq
    rw [hsplit, foldE_append] at heq
    cases hpre : foldE (mesosService env domain app) ([], []) pre with
    | error e =>
      rw [hpre] at heq
      exact Except.noConfusion heq
    | ok accP =>
      rw [hpre] at heq
      simp only [foldE] at heq
      cases hFs : mesosService env domain app accP s with
      | error e =>
        rw [hFs] at heq
        exact Except.noConfusion heq
      | ok acc1 =>
        rw [hFs] at heq
        have hkey : (alistGet acc1.1 s.name).isSome := by
          unfold mesosService at hFs
          cases hg2 : s.group <|> app.group with
          | none =>
            rw [hg2] at hg
            simp at hg
          | some group =>
            simp only [hg2] at hFs
            cases hserv : foldE (mesosProt env domain s.name group s) []
                [Prot.tcp, Prot.udp] with
            | error e =>
              simp only [hserv] at hFs
              exact Except.noConfusion hFs
            | ok serv =>
              simp only [hserv] at hFs
              cases hFs
              rw [alistGet_set_self]
              rfl
        exact foldE_inv (fun b a b' ha hP h => mesosService_keeps_key hP h) hkey heq
  · intro env domain app pre post s g hsplit hg hsrv hnames
    have hprot : ∀ (prot : Prot) (serv : List (String × HostEntry)),
        mesosProt env domain s.name g s serv prot = .ok serv := by
      intro prot serv
      cases hm : s.getProt prot with
      | none => simp [mesosProt, hm]
      | some masks =>
        simp only [mesosProt, hm]
        by_cases hmask : masks.length ≠ 0
        · rw [if_pos hmask]
          refine foldE_skip ?_ serv
          intro sv pname hmem
          have hf : env.srv (mesosFqdnNamed pname s.name g prot.str domain) = [] := by
            apply hsrv
            unfold mesosQueryFqdns
            have hin : mesosFqdnNamed pname s.name g prot.str domain ∈
                mesosProtFqdns domain s g prot := by
              simp only [mesosProtFqdns, hm]
              rw [if_pos hmask]
              exact List.mem_map_of_mem _ hmem
            cases prot
            · exact List.mem_append_left _ hin
            · exact List.mem_append_right _ hin
          rw [hf]
          rfl
        · rw [if_neg hmask]
          have hf : env.srv (mesosFqdnRaw s.name g prot.str domain) = [] := by
            apply hsrv
            unfold mesosQueryFqdns
            have hin : mesosFqdnRaw s.name g prot.str domain ∈
                mesosProtFqdns domain s g prot := by
              simp only [mesosProtFqdns, hm]
              rw [if_neg hmask]
              exact List.mem_singleton.mpr rfl
            cases prot
            · exact List.mem_append_left _ hin
            · exact List.mem_append_right _ hin
          rw [hf]
          rfl
    have h0 : HostsInv app (([], []) : Resolved × List Log).1 := by
      intro sv hsv
      cases hsv
    obtain ⟨accP, hpre, hinvP⟩ :=
      @mesosFold_ok env domain app pre
        (fun x hx => by rw [hsplit]; exact List.mem_append_left _ hx) ([], []) h0
    obtain ⟨hostsP, logsP⟩ := accP
    have hfold : foldE (mesosProt env domain s.name g s) [] [Prot.tcp, Prot.udp] =
        .ok [] := foldE_skip (fun b a ha => hprot a b) []
    have hFs : mesosService env domain app (hostsP, logsP) s =
        .ok (alistSet hostsP s.name [], logsP) := by
      simp only [mesosService, hg, hfold, List.map_nil]
    have hinv1 : HostsInv app (alistSet hostsP s.name []) := by
      intro sv hsv
      rcases mem_alistSet hsv with hsv | hsv
      · exact hinvP sv hsv
      · refine ⟨s, ?_, ?_⟩
        · rw [hsplit]
          exact List.mem_append_right _ (List.mem_cons_self _ _)
        · intro h hh
          rw [hsv] at hh
          cases hh
    obtain ⟨accQ, hpost, hinvQ⟩ :=
      @mesosFold_ok env domain app post
        (fun x hx => by rw [hsplit]; exact List.mem_append_right _ (List.mem_cons_of_mem _ hx))
        (alistSet hostsP s.name [], logsP) hinv1
    refine ⟨accQ.1, accQ.2, ?_, ?_⟩
    · unfold mesosResolve
      rw [hsplit, foldE_append]
      simp only [hpre, foldE, hFs, hpost]
    · have hkey : alistGet (alistSet hostsP s.name []) s.name = some [] :=
        alistGet_set_self _ _ _
      refine foldE_inv
        (P := fun acc : Resolved × List Log => alistGet acc.1 s.name = some []) ?_ hkey hpost
      intro b a b' ha hP h
      exact mesosService_keeps_value (hnames a ha) hP h

/-! ## Compatibility-transform lemmas for the tcp-only behaviour -/

theorem compatHost_erase (c : List (String × CompatVal)) (s : String) (h : HostEntry) :
    compatHost c s { h with udp := none } = compatHost c s h := rfl

theorem foldl_compatHost_erase (s : String) :
    ∀ (hl : List HostEntry) (ch : List (String × CompatVal)),
      (hl.map fun h => { h with udp := none }).foldl (fun c h => compatHost c s h) ch =
        hl.foldl (fun c h => compatHost c s h) ch := by
  intro hl
  induction hl with
  | nil => intro ch; rfl
  | cons x t ih =>
    intro ch
    simp only [List.map_cons, List.foldl_cons, compatHost_erase]
    exact ih _

theorem alistGet_compatHost_ne {ch : List (String × CompatVal)} {s0 service : String}
    (hne : s0 ≠ service) (h : HostEntry) :
    alistGet (compatHost ch s0 h) service = alistGet ch service := by
  unfold compatHost
  cases h.tcp.getD (.raw []) with
  | raw ports => exact alistGet_set_ne _ _ hne
  | named tbl => exact alistGet_set_ne _ _ hne

theorem foldl_compatHost_ne {s0 service : String} (hne : s0 ≠ service) :
    ∀ (hl : List HostEntry) (ch : List (String × CompatVal)),
      alistGet (hl.foldl (fun c h => compatHost c s0 h) ch) service =
        alistGet ch service := by
  intro hl
  induction hl with
  | nil => intro ch; rfl
  | cons x t ih =>
    intro ch
    simp only [List.foldl_cons]
    rw [ih, alistGet_compatHost_ne hne]

theorem foldl_compatHost_last (service : String) :
    ∀ (hl : List HostEntry) (ch : List (String × CompatVal)), hl ≠ [] →
      (∀ h ∈ hl, h.tcp = none) →
      alistGet (hl.foldl (fun c h => compatHost c service h) ch) service =
        some (.recs []) := by
  intro hl
  induction hl with
  | nil => intro ch hne; exact absurd rfl hne
  | cons x t ih =>
    intro ch hne hall
    cases t with
    | nil =>
      simp only [List.foldl_cons, List.foldl_nil]
      have hx : x.tcp = none := hall x (List.mem_cons_self _ _)
      unfold compatHost
      rw [hx]
      simp [alistGet_set_self]
    | cons y u =>
      simp only [List.foldl_cons]
      exact ih (compatHost ch service x) (by simp)
        (fun h hh => hall h (List.mem_cons_of_mem _ hh))

theorem foldl_services_keep {service : String} :
    ∀ (post : List (String × List HostEntry)) (ch : List (String × CompatVal)),
      service ∉ post.map Prod.fst →
      alistGet (post.foldl (fun ch sv => sv.2.foldl (fun c h => compatHost c sv.1 h) ch) ch)
          service =
        alistGet ch service := by
  intro post
  induction post with
  | nil => intro ch h; rfl
  | cons sv t ih =>
    intro ch h
    simp only [List.map_cons, List.mem_cons, not_or] at h
    simp only [List.foldl_cons]
    rw [ih _ h.2, foldl_compatHost_ne (fun he => h.1 he.symm)]

/-- C10.  The legacy compatibility transform reads only each host's tcp
slot: erasing every udp slot leaves its output unchanged, and a service
whose hosts (at least one) all lack a tcp slot maps to an empty record
list in the legacy output, since a missing tcp key defaults to an empty
raw port list. -/
theorem claim10_compatible_reads_only_tcp :
    (∀ hosts : Resolved, compatible "0.7" (eraseUdp hosts) = compatible "0.7" hosts)
    ∧ (∀ (pre post : List (String × List HostEntry)) (service : String)
        (hl : List HostEntry),
      service ∉ post.map Prod.fst → hl ≠ [] → (∀ h ∈ hl, h.tcp = none) →
      ∃ tbl, compatible "0.7" (pre ++ (service, hl) :: post) = .legacy tbl
        ∧ alistGet tbl service = some (.recs [])) := by
  constructor
  · intro hosts
    unfold compatible
    rw [if_pos rfl, if_pos rfl]
    have main : ∀ (hs : Resolved) (ch : List (String × CompatVal)),
        (eraseUdp hs).foldl (fun ch sv => sv.2.foldl (fun c h => compatHost c sv.1 h) ch) ch =
          hs.foldl (fun ch sv => sv.2.foldl (fun c h => compatHost c sv.1 h) ch) ch := by
      intro hs
      induction hs with
      | nil => intro ch; rfl
      | cons sv t ih =>
        intro ch
        simp only [eraseUdp, List.map_cons, List.foldl_cons]
        rw [foldl_compatHost_erase]
        simp only [eraseUdp] at ih
        exact ih _
    rw [main hosts []]
  · intro pre post service hl hpost hne hall
    refine ⟨(pre ++ (service, hl) :: post).foldl
      (fun ch sv => sv.2.foldl (fun c h => compatHost c sv.1 h) ch) [], ?_, ?_⟩
    · unfold compatible
      rw [if_pos rfl]
    · rw [List.foldl_append, List.foldl_cons]
      rw [foldl_services_keep post _ hpost]
      exact foldl_compatHost_last service hl _ hne hall

/-! ## Witnesses -/

/-- Witness for C4's amended claim at concrete inputs: a task whose appId
matches no service mask contributes nothing to the Marathon result, the
present mesos entry from the counterexample input is detected by
`alistGet`, and a mesos service with empty lookups maps to the empty
host list. -/
theorem claim4_amended_witness :
    marathonResolve aq0 [⟨"/x/y", "h", [], []⟩] [] appWeb =
      marathonResolve aq0 [⟨"/x/y", "h", [], []⟩] [] { appWeb with services := [] ++ [] }
    ∧ (alistGet ([("svc", [])] : Resolved) "svc").isSome
    ∧ ∃ r logs, mesosResolve dnsEmpty "dom" appSvc = .ok (r, logs)
        ∧ alistGet r "svc" = some [] := by
  refine ⟨?_, ?_, ?_⟩
  · exact claim4_amended_absent_only_in_marathon.1 aq0 [⟨"/x/y", "h", [], []⟩] [] appWeb
      [] [] specWeb "g" rfl rfl
      (by intro task ht; rw [List.mem_singleton] at ht; subst ht; rfl)
  · exact claim4_amended_absent_only_in_marathon.2.1 dnsEmpty "dom" appSvc [("svc", [])] []
      ⟨"svc", none, some [], none⟩ rfl (List.mem_singleton.mpr rfl) rfl
  · exact claim4_amended_absent_only_in_marathon.2.2 dnsEmpty "dom" appSvc [] []
      ⟨"svc", none, some [], none⟩ "g" rfl rfl (fun f hf => rfl)
      (fun s2 hs2 => absurd hs2 (List.not_mem_nil _))

/-- Witness for C5 at a concrete successful DNS resolution. -/
theorem claim5_witness :
    mesosResolve dnsOne "dom" appWeb =
      .ok ([("web", [{ name := "n1", ip := ["9.9.9.9"], tcp := some (.raw [7]) }])], [])
    ∧ resolvedOk appWeb
        [("web", [{ name := "n1", ip := ["9.9.9.9"], tcp := some (.raw [7]) }])] = true :=
  ⟨rfl, claim5_port_shape_invariant.1 dnsOne "dom" appWeb _ [] rfl⟩

/-- Witness for C6: an app whose first service has no group and whose
second service resolves normally. -/
theorem claim6_witness :
    ∃ r logsA logsB,
      mesosResolve dnsEmpty "dom" appMixed =
        .ok (r, logsA ++ (LogLevel.error, groupErrMsg "a" "cfg") :: logsB)
      ∧ mesosResolve dnsEmpty "dom" { appMixed with services := [] ++ [specB] } =
        .ok (r, logsA ++ logsB) :=
  claim6_missing_group_skips_service.1 dnsEmpty "dom" appMixed [] [specB] specNoGroup
    rfl rfl rfl

/-- Witness for C7 at concrete registries: empty services, unknown name,
disabled backend, and an enabled backend whose result is transformed. -/
theorem claim7_witness :
    registryResolve [] "dd" "0.8" { services := [] } = (.passthru [], [])
    ∧ registryResolve [] "zz" "0.8" { services := [specWeb] } =
        (.passthru [], [(.warning, notPresentMsg "zz")])
    ∧ registryResolve [("be", ⟨false, fun _ => []⟩)] "be" "0.8" { services := [specWeb] } =
        (.passthru [], [(.error, disabledMsg "be")])
    ∧ registryResolve [("on", ⟨true, fun _ => [("x", [])]⟩)] "on" "0.8"
        { services := [specWeb] } = (compatible "0.8" [("x", [])], []) := by
  refine ⟨?_, ?_, ?_, ?_⟩
  · exact claim7_registry_dispatch.1 [] "dd" "0.8" _ rfl
  · exact claim7_registry_dispatch.2.1 [] "zz" "0.8" _ (List.cons_ne_nil _ _) rfl
  · exact claim7_registry_dispatch.2.2.1 [("be", ⟨false, fun _ => []⟩)] "be" "0.8"
      { services := [specWeb] } ⟨false, fun _ => []⟩ (List.cons_ne_nil _ _) rfl rfl
  · exact claim7_registry_dispatch.2.2.2 [("on", ⟨true, fun _ => [("x", [])]⟩)] "on" "0.8"
      { services := [specWeb] } ⟨true, fun _ => [("x", [])]⟩ (List.cons_ne_nil _ _) rfl rfl

/-- Witness for C8 at the concrete version string `"0.8"`. -/
theorem claim8_witness :
    compatible "0.8" [("s", [hostA])] = .passthru [("s", [hostA])] :=
  claim8_compatible_identity_on_non_legacy "0.8" [("s", [hostA])] (by decide)

/-- Witness for C10 at a concrete udp-only host between two other services. -/
theorem claim10_witness :
    ∃ tbl, compatible "0.7"
        ([("w", [hostC])] ++
          ("u", [{ name := "u1", ip := [], udp := some (.raw [5]) }]) :: [("z", [hostD])]) =
        .legacy tbl
      ∧ alistGet tbl "u" = some (.recs []) :=
  claim10_compatible_reads_only_tcp.2 [("w", [hostC])] [("z", [hostD])] "u"
    [{ name := "u1", ip := [], udp := some (.raw [5]) }] (by decide)
    (List.cons_ne_nil _ _)
    (by intro h hh; rw [List.mem_singleton] at hh; subst hh; rfl)

end Surok
